import Mathlib

/-!
# A verification development for the Jarvis-AI assistant

This file gives a shallow embedding, in Lean 4, of the core logic of the
Jarvis-AI repository (`JarvisAI/core/command_processor.py`,
`JarvisAI/core/session_manager.py`, `JarvisAI/core/speech_engine.py`,
`JarvisAI/jarvis.py`, `JarvisAI/config.py`) and proves or refutes the
spec's claims about it.

Modelling conventions:
* Python strings are Lean `String`s / `List Char`; the character classes
  of Python's `re` module (`\w`, `\s`, `\d`, `.`) and `str.lower` are
  modelled on their ASCII fragment (the repository only ever feeds ASCII
  command text through them).
* Python floats are modelled as exact rationals (`ℚ`).  Every float the
  program compares (overlap scores `p/q` with `q ≤ 7` against `0.25`, and
  volume levels in steps of `0.2` clamped to `[0.2, 1.0]`) is far from
  any double-rounding boundary, so the rational model and the float
  semantics decide every comparison the same way; `0.25` itself is exact
  in both.
* The regular expressions of `command_processor.py` are embedded as
  terms of a small regex datatype `RE`, and `re.search` / `re.sub` are
  implemented with Python's leftmost, backtracking, ordered-alternation
  semantics (greedy and lazy quantifiers only ever repeat a single
  character class in this code base, which the datatype exploits).
* Side effects (text-to-speech output, external handler invocations,
  timers) are recorded in explicit effect lists inside the state.
-/

/-! ## Python character classes and small string helpers -/

/-- Python `\s` on its ASCII fragment: space, tab, newline, carriage
return, vertical tab, form feed. -/
def isPySpace (c : Char) : Bool :=
  c == ' ' || c == '\t' || c == '\n' || c == '\r' || c == '\x0b' || c == '\x0c'

/-- Python `\w` on its ASCII fragment: letters, digits and underscore. -/
def isPyWord (c : Char) : Bool :=
  c.isAlphanum || c == '_'

/-- Python `\d` on its ASCII fragment. -/
def isPyDigit (c : Char) : Bool := c.isDigit

/-- Python `.` in a regex: any character except a newline. -/
def isPyDot (c : Char) : Bool := c != '\n'

/-- Substring test, Python's `needle in haystack` on lists of characters:
true iff `needle` occurs contiguously inside `haystack`. -/
def listContains (haystack needle : List Char) : Bool :=
  needle.isPrefixOf haystack ||
    match haystack with
    | [] => false
    | _ :: t => listContains t needle

/-- Substring test on strings, Python's `sub in s`. -/
def strContains (s sub : String) : Bool := listContains s.toList sub.toList

/-- Python `str.strip()`: drop leading and trailing whitespace. -/
def pyStrip (s : String) : String :=
  String.mk (((s.toList.dropWhile isPySpace).reverse.dropWhile isPySpace).reverse)

/-- Python `str.split()` (no separator): split on runs of whitespace,
dropping empty pieces.  `acc` holds the characters of the current word,
reversed. -/
def pySplitAux : List Char → List Char → List String
  | [], acc => if acc.isEmpty then [] else [String.mk acc.reverse]
  | c :: cs, acc =>
    if isPySpace c then
      if acc.isEmpty then pySplitAux cs []
      else String.mk acc.reverse :: pySplitAux cs []
    else pySplitAux cs (c :: acc)

def pySplitWs (s : String) : List String := pySplitAux s.toList []

/-- Python `s.split(kw, 1)[1]`: everything after the first occurrence of
`kw` (the empty string when `kw` does not occur; the code only calls it
under a containment test). -/
def splitAfterFirst : List Char → List Char → List Char
  | s, kw =>
    if kw.isPrefixOf s then s.drop kw.length
    else
      match s with
      | [] => []
      | _ :: t => splitAfterFirst t kw

/-- Python `str.lower()`, character-wise on the ASCII fragment. -/
def pyLower (s : String) : String := String.mk (s.toList.map Char.toLower)

/-- Python `int(...)` on a non-empty all-digit string. -/
def digitsToNat (s : String) : Nat :=
  s.toList.foldl (fun acc c => acc * 10 + (c.toNat - 48)) 0

/-! ## A small regex engine with Python `re.search` semantics

Every quantifier in `command_processor.py` repeats a single character
class (`.*`, `.?`, `.+`, `.+?`, `\s+`, `\s*`, `[a-z\s]+`, `\d+`), so
repetition is represented as `star` of a character class with a
greediness flag.  Matching is continuation-passing backtracking, which
reproduces Python's leftmost / ordered-alternation / greedy-vs-lazy
behaviour.  Captures are recorded as `(group, start, stop)` index
triples over the subject. -/

inductive RE : Type where
  /-- matches the empty string -/
  | eps : RE
  /-- a single character satisfying the class -/
  | cls : (Char → Bool) → RE
  /-- concatenation -/
  | cat : RE → RE → RE
  /-- ordered alternation: the left branch is tried first -/
  | alt : RE → RE → RE
  /-- repetition (zero or more) of a character class; the flag is true
  for greedy (`*`), false for lazy (`*?`) -/
  | star : (Char → Bool) → Bool → RE
  /-- capturing group with the given number -/
  | grp : Nat → RE → RE
  /-- word boundary `\b` -/
  | wb : RE
  /-- end-of-subject anchor `$` -/
  | eos : RE

/-- Length of the longest run of characters satisfying `p` at the head. -/
def runLen (p : Char → Bool) : List Char → Nat
  | [] => 0
  | c :: cs => if p c then runLen p cs + 1 else 0

/-- captured spans: (group number, start index, stop index), most recent
first. -/
abbrev Caps := List (Nat × Nat × Nat)

/-- Greedy repetition: try the continuation at `i + n`, `i + n - 1`, …,
`i`. -/
def tryDown {α : Type} (k : Nat → Option α) (i : Nat) : Nat → Option α
  | 0 => k i
  | n + 1 => (k (i + n + 1)).orElse fun _ => tryDown k i n

/-- Lazy repetition: try the continuation at `i`, `i + 1`, …, `i + n`. -/
def tryUp {α : Type} (k : Nat → Option α) (i : Nat) : Nat → Option α
  | 0 => k i
  | n + 1 => (k i).orElse fun _ => tryUp k (i + 1) n

/-- Is the character at index `i` of `s` a word character?  (False past
the end.) -/
def isWordAt (s : List Char) (i : Nat) : Bool :=
  match s.get? i with
  | some c => isPyWord c
  | none => false

/-- `\b` holds at `i` iff exactly one of the characters around position
`i` is a word character (positions outside the subject count as
non-word). -/
def atWordBoundary (s : List Char) (i : Nat) : Bool :=
  (if i = 0 then false else isWordAt s (i - 1)) != isWordAt s i

/-- The backtracking matcher.  `matchRE s r i cps k` tries to match `r`
at index `i` of subject `s` with captures-so-far `cps`, calling the
continuation `k` with the end index and captures on each candidate
match, in the order Python's engine would produce them. -/
def matchRE {α : Type} (s : List Char) : RE → Nat → Caps → (Nat → Caps → Option α) → Option α
  | .eps, i, cps, k => k i cps
  | .cls p, i, cps, k =>
    match s.get? i with
    | some c => if p c then k (i + 1) cps else none
    | none => none
  | .cat r1 r2, i, cps, k =>
    matchRE s r1 i cps fun j cps2 => matchRE s r2 j cps2 k
  | .alt r1 r2, i, cps, k =>
    (matchRE s r1 i cps k).orElse fun _ => matchRE s r2 i cps k
  | .star p greedy, i, cps, k =>
    let n := runLen p (s.drop i)
    if greedy then tryDown (fun j => k j cps) i n else tryUp (fun j => k j cps) i n
  | .grp n r, i, cps, k =>
    matchRE s r i cps fun j cps2 => k j ((n, i, j) :: cps2)
  | .wb, i, cps, k => if atWordBoundary s i then k i cps else none
  | .eos, i, cps, k => if i = s.length then k i cps else none

/-- Try a full match of `r` anchored at index `i`. -/
def matchAt (r : RE) (s : List Char) (i : Nat) : Option (Nat × Nat × Caps) :=
  matchRE s r i [] fun j cps => some (i, j, cps)

/-- `re.search`, trying start positions `i, i+1, …, i+cnt` (leftmost
match wins); `reSearch` runs it over the whole subject. -/
def searchCnt (r : RE) (s : List Char) : Nat → Nat → Option (Nat × Nat × Caps)
  | i, 0 => matchAt r s i
  | i, cnt + 1 =>
    match matchAt r s i with
    | some res => some res
    | none => searchCnt r s (i + 1) cnt

/-- Python `re.search(r, s)`: the leftmost match, as
`(start, stop, captures)`. -/
def reSearch (r : RE) (s : List Char) : Option (Nat × Nat × Caps) :=
  searchCnt r s 0 s.length

/-- The slice `s[a:b]` as a string. -/
def sliceStr (s : List Char) (a b : Nat) : String :=
  String.mk ((s.drop a).take (b - a))

/-- `m.group(n)` of a match: the captured slice, if group `n` matched. -/
def capStr (s : List Char) (cps : Caps) (n : Nat) : Option String :=
  (cps.find? fun t => t.1 == n).map fun t => sliceStr s t.2.1 t.2.2

/-- Python `re.sub(r, rep, s)` (leftmost, non-overlapping; every pattern
this file substitutes matches at least one character, so each step
consumes input and the fuel `s.length + 1` is never exhausted). -/
def reSubCnt (r : RE) (rep : String) (s : List Char) (pos : Nat) : Nat → String
  | 0 => String.mk (s.drop pos)
  | fuel + 1 =>
    match searchCnt r s pos (s.length - pos) with
    | none => String.mk (s.drop pos)
    | some (a, b, _) =>
      sliceStr s pos a ++ rep ++ reSubCnt r rep s (max b (a + 1)) fuel

def reSub (r : RE) (rep : String) (s : List Char) : String :=
  reSubCnt r rep s 0 (s.length + 1)

/-! ### Regex notation helpers used to transcribe the patterns -/

/-- a single literal character -/
def chrRE (c : Char) : RE := .cls (fun x => x == c)

/-- a literal string -/
def litRE (w : String) : RE := (w.toList.map chrRE).foldr RE.cat RE.eps

/-- concatenation of a list of regexes -/
def seqRE (l : List RE) : RE := l.foldr RE.cat RE.eps

/-- ordered alternation over a list (first alternative tried first) -/
def altsRE : List RE → RE
  | [] => .cls (fun _ => false)
  | [r] => r
  | r :: rs => .alt r (altsRE rs)

/-- `X?` (greedy) for a sub-regex -/
def optRE (r : RE) : RE := .alt r .eps

/-- `p+` (greedy) for a character class -/
def plusCls (p : Char → Bool) : RE := .cat (.cls p) (.star p true)

/-- `p+?` (lazy) for a character class -/
def plusClsLazy (p : Char → Bool) : RE := .cat (.cls p) (.star p false)

/-! ## Configuration (`config.py`) -/

def MEMORY_SIZE : Nat := 3
def MODE_VOICE : String := "voice"
def MODE_MANUAL : String := "manual"

/-- `VOICE_STYLES`: name, rate, volume. -/
def VOICE_STYLES : List (String × Int × ℚ) :=
  [("formal", 150, 9/10), ("casual", 175, 9/10), ("robotic", 120, 1)]

def DEFAULT_VOICE_STYLE : String := "formal"

/-! ## Commands and parameter maps -/

/-- A value stored in a command's parameter map (string, integer, or
Python `None`). -/
inductive PVal : Type where
  | s : String → PVal
  | i : Int → PVal
  | none : PVal
deriving DecidableEq, Repr

abbrev Params := List (String × PVal)

/-- `params[key]` / `params.get(key)`; missing keys give `PVal.none`
(the controller's direct indexing never misses on the paths the claims
exercise). -/
def lookupP (ps : Params) (k : String) : PVal :=
  match ps.find? fun p => p.1 == k with
  | some p => p.2
  | Option.none => PVal.none

structure Command where
  action : String
  params : Params
deriving DecidableEq, Repr

/-! ## The Text Normalizer (`command_processor.py`, `_normalize`) -/

/-- `_FILLERS`' alternatives, in source order. -/
def FILLER_WORDS : List String :=
  ["please", "could you", "would you", "hey", "jarvis", "ok", "okay",
   "so", "um", "uh", "the", "a", "an"]

/-- `_FILLERS = r'\b(please|could you|...|an)\b'` -/
def fillersRE : RE :=
  seqRE [.wb, .grp 1 (altsRE (FILLER_WORDS.map litRE)), .wb]

/-- `re.sub(r"\s+", " ", text).strip()`: the pattern `\s+` matches
exactly the maximal whitespace runs, so the substitution replaces each
maximal run by one space; `collapseWs` implements that replacement
directly (keeping a run's last character as the single space) and
`pyStrip` is the final `.strip()`. -/
def collapseWs : List Char → List Char
  | [] => []
  | [c] => if isPySpace c then [' '] else [c]
  | c :: d :: cs =>
    if isPySpace c && isPySpace d then collapseWs (d :: cs)
    else (if isPySpace c then ' ' else c) :: collapseWs (d :: cs)

/-- `_normalize(text)` from `command_processor.py` (named `normalizeText`
here because Mathlib already owns `normalize`). -/
def normalizeText (text : String) : String :=
  if text = "" then ""                      -- `if not text: return ""`
  else
    let t := pyLower text                   -- `text.lower()`
    -- `re.sub(r"[^\w\s]", " ", text)`: the pattern matches single
    -- characters, so the substitution is the character-wise replacement
    let t := String.mk (t.toList.map fun c =>
      if isPyWord c || isPySpace c then c else ' ')
    let t := reSub fillersRE " " t.toList   -- `re.sub(_FILLERS, " ", text)`
    pyStrip (String.mk (collapseWs t.toList))

/-- `_tokens(text)`: `text.split()`. -/
def tokens (text : String) : List String := pySplitWs text

/-- `_overlap_score(tokens, keywords)`. -/
def overlapScore (toks keywords : List String) : ℚ :=
  if keywords.isEmpty then 0
  else
    let tset := toks.eraseDups
    let kset := keywords.eraseDups
    let overlap := (tset.filter fun t => kset.contains t).length
    (overlap : ℚ) / (kset.length : ℚ)

/-! ## The Intent Catalog (`CommandProcessor.__init__`) -/

/-- `[a-z\s]` -/
def isAzOrSpace (c : Char) : Bool :=
  (97 ≤ c.toNat && c.toNat ≤ 122) || isPySpace c

structure IntentSpec where
  keywords : List String
  patterns : List RE

/-- `self.intent_definitions`, in insertion (iteration) order. -/
def intentDefinitions : List (String × IntentSpec) :=
  [ ("time",
     { keywords := ["time", "clock"],
       patterns :=
         [ -- `\bwhat.?time\b`
          seqRE [.wb, litRE "what", optRE (.cls isPyDot), litRE "time", .wb],
          -- `\btell.*time\b`
          seqRE [.wb, litRE "tell", .star isPyDot true, litRE "time", .wb],
          -- `\btime now\b`
          seqRE [.wb, litRE "time now", .wb],
          -- `\bcurrent time\b`
          seqRE [.wb, litRE "current time", .wb]] }),
    ("date",
     { keywords := ["date", "day", "today"],
       patterns :=
         [ -- `\bwhat.?date\b`
          seqRE [.wb, litRE "what", optRE (.cls isPyDot), litRE "date", .wb],
          -- `\btell.*date\b`
          seqRE [.wb, litRE "tell", .star isPyDot true, litRE "date", .wb],
          -- `\bwhat's today\b`
          seqRE [.wb, litRE "what's today", .wb],
          -- `\bcurrent date\b`
          seqRE [.wb, litRE "current date", .wb]] }),
    ("weather",
     { keywords := ["weather", "temperature", "forecast", "rain", "hot", "cold"],
       patterns :=
         [ -- `\bweather\b`
          seqRE [.wb, litRE "weather", .wb],
          -- `\bhow.*temperature\b`
          seqRE [.wb, litRE "how", .star isPyDot true, litRE "temperature", .wb],
          -- `\bforecast\b`
          seqRE [.wb, litRE "forecast", .wb]] }),
    ("wikipedia",
     { keywords := ["who", "what", "wikipedia", "wiki", "tell", "about"],
       patterns :=
         [ -- `\b(who|what)\b.*\b(is|was|are)\b`
          seqRE [.wb, .grp 1 (altsRE [litRE "who", litRE "what"]), .wb,
                 .star isPyDot true,
                 .wb, .grp 2 (altsRE [litRE "is", litRE "was", litRE "are"]), .wb],
          -- `\btell me about\b`
          seqRE [.wb, litRE "tell me about", .wb],
          -- `\bwikipedia\b`
          seqRE [.wb, litRE "wikipedia", .wb],
          -- `\bwiki\b`
          seqRE [.wb, litRE "wiki", .wb]] }),
    ("search",
     { keywords := ["search", "google", "find", "look", "lookup", "searching"],
       patterns :=
         [seqRE [.wb, litRE "search", .wb],     -- `\bsearch\b`
          seqRE [.wb, litRE "look up", .wb],    -- `\blook up\b`
          seqRE [.wb, litRE "google", .wb],     -- `\bgoogle\b`
          seqRE [.wb, litRE "find", .wb]] }),   -- `\bfind\b`
    ("open_app",
     { keywords := ["open", "launch", "start", "run"],
       patterns :=
         [seqRE [.wb, litRE "open", .wb],       -- `\bopen\b`
          seqRE [.wb, litRE "launch", .wb],     -- `\blaunch\b`
          seqRE [.wb, litRE "start", .wb],      -- `\bstart\b`
          seqRE [.wb, litRE "run", .wb]] }),    -- `\brun\b`
    ("system_status",
     { keywords := ["cpu", "battery", "memory", "ram", "network", "internet", "status"],
       patterns :=
         [ -- `\bsystem\b.*\b(status|info)\b`
          seqRE [.wb, litRE "system", .wb, .star isPyDot true,
                 .wb, .grp 1 (altsRE [litRE "status", litRE "info"]), .wb],
          -- `\b(cpu|battery|memory|ram|network|internet)\b`
          seqRE [.wb, .grp 1 (altsRE [litRE "cpu", litRE "battery", litRE "memory",
                                      litRE "ram", litRE "network", litRE "internet"]), .wb]] }),
    ("reminder",
     { keywords := ["remind", "reminder", "remember", "remind me"],
       patterns :=
         [ -- `\b(remind|reminder)\b`
          seqRE [.wb, .grp 1 (altsRE [litRE "remind", litRE "reminder"]), .wb],
          -- `\bremember\b`
          seqRE [.wb, litRE "remember", .wb]] }),
    ("volume",
     { keywords := ["volume", "louder", "softer", "mute", "unmute", "quieter"],
       patterns :=
         [ -- `\b(louder|softer|mute|unmute|volume|quieter)\b`
          seqRE [.wb, .grp 1 (altsRE [litRE "louder", litRE "softer", litRE "mute",
                                      litRE "unmute", litRE "volume", litRE "quieter"]), .wb]] }),
    ("voice_style",
     { keywords := ["voice", "style", "formal", "casual", "robotic"],
       patterns :=
         [ -- `\b(voice|style)\b`
          seqRE [.wb, .grp 1 (altsRE [litRE "voice", litRE "style"]), .wb],
          seqRE [.wb, litRE "formal", .wb],     -- `\bformal\b`
          seqRE [.wb, litRE "casual", .wb],     -- `\bcasual\b`
          seqRE [.wb, litRE "robotic", .wb]] }), -- `\brobotic\b`
    ("help",
     { keywords := ["help", "commands", "features", "what can you do"],
       patterns :=
         [seqRE [.wb, litRE "help", .wb],             -- `\bhelp\b`
          seqRE [.wb, litRE "what can you do", .wb],  -- `\bwhat can you do\b`
          seqRE [.wb, litRE "commands", .wb]] }),     -- `\bcommands\b`
    ("exit",
     { keywords := ["exit", "quit", "bye", "goodbye", "stop"],
       patterns :=
         [ -- `\b(exit|quit|bye|goodbye|stop)\b`
          seqRE [.wb, .grp 1 (altsRE [litRE "exit", litRE "quit", litRE "bye",
                                      litRE "goodbye", litRE "stop"]), .wb]] }),
    ("listening",
     { keywords := ["start", "stop", "listening"],
       patterns :=
         [seqRE [.wb, litRE "start listening", .wb],   -- `\bstart listening\b`
          seqRE [.wb, litRE "stop listening", .wb]] })] -- `\bstop listening\b`

/-! ## Parameter-extraction regexes (`CommandProcessor.__init__`) -/

/-- `self._regex_city = re.compile(r'in\s+([a-z\s]+)$')` -/
def regexCity : RE :=
  seqRE [litRE "in", plusCls isPySpace, .grp 1 (plusCls isAzOrSpace), .eos]

/-- `self._regex_search = re.compile(r'(?:search\s+for|search|google|find)\s+(.+)$')` -/
def regexSearch : RE :=
  seqRE [altsRE [seqRE [litRE "search", plusCls isPySpace, litRE "for"],
                 litRE "search", litRE "google", litRE "find"],
         plusCls isPySpace, .grp 1 (plusCls isPyDot), .eos]

/-- `self._regex_open = re.compile(r'(?:open|launch|start|run)\s+(.+)$')` -/
def regexOpen : RE :=
  seqRE [altsRE [litRE "open", litRE "launch", litRE "start", litRE "run"],
         plusCls isPySpace, .grp 1 (plusCls isPyDot), .eos]

/-- `self._regex_reminder = re.compile(r'remind me (?:to\s+)?(.+?) (?:in|at|on|after)\s+(.+)$')` -/
def regexReminder : RE :=
  seqRE [litRE "remind me ",
         optRE (seqRE [litRE "to", plusCls isPySpace]),
         .grp 1 (plusClsLazy isPyDot),
         litRE " ",
         altsRE [litRE "in", litRE "at", litRE "on", litRE "after"],
         plusCls isPySpace, .grp 2 (plusCls isPyDot), .eos]

/-- `self._regex_simple_remind = re.compile(r'remind me to (.+)$')` -/
def regexSimpleRemind : RE :=
  seqRE [litRE "remind me to ", .grp 1 (plusCls isPyDot), .eos]

/-- `self._regex_time_seconds = re.compile(r'(\d+)\s*(second|seconds|minute|minutes|hour|hours)')` -/
def regexTimeSeconds : RE :=
  seqRE [.grp 1 (plusCls isPyDigit), .star isPySpace true,
         .grp 2 (altsRE [litRE "second", litRE "seconds", litRE "minute",
                         litRE "minutes", litRE "hour", litRE "hours"])]

/-- `m.group(n)` straight from a `re.search` result (`none` when there
was no match; on the regexes used here the group always participates in
a successful match). -/
def groupStr (s : List Char) (res : Option (Nat × Nat × Caps)) (n : Nat) : Option String :=
  res.bind fun t => capStr s t.2.2 n

/-! ## `CommandProcessor._extract_params` -/

/-- `_extract_params(intent, text, raw)`: the source is a sequence of
`if intent == …:` blocks over pairwise-distinct intent names, rendered
here as one match; intents without a block yield `{}`. -/
def extractParams (intent text raw : String) : Params :=
  match intent with
  | "weather" =>
    -- city_m = self._regex_city.search(text)
    match groupStr text.toList (reSearch regexCity text.toList) 1 with
    | some g => [("city", PVal.s (pyStrip g))]
    | Option.none => [("city", PVal.none)]
  | "search" =>
    match groupStr text.toList (reSearch regexSearch text.toList) 1 with
    | some g => [("query", PVal.s (pyStrip g))]
    | Option.none => [("query", PVal.s text)]
  | "wikipedia" =>
    -- scan `['who is', 'what is', 'tell me about', 'wikipedia', 'wiki']`;
    -- an occurring keyword with a non-empty remainder wins, otherwise the
    -- loop continues; after the loop the query falls back to `raw`
    let kws := ["who is", "what is", "tell me about", "wikipedia", "wiki"]
    match kws.findSome? (fun kw =>
        if strContains text kw then
          let phrase := pyStrip (String.mk (splitAfterFirst text.toList kw.toList))
          if phrase ≠ "" then some phrase else Option.none
        else Option.none) with
    | some phrase => [("query", PVal.s phrase)]
    | Option.none => [("query", PVal.s raw)]
  | "open_app" =>
    match groupStr text.toList (reSearch regexOpen text.toList) 1 with
    | some g => [("app", PVal.s (pyStrip g))]
    | Option.none => [("app", PVal.s text)]
  | "reminder" =>
    -- all three tiers run on `raw.lower()`
    let rl := (pyLower raw).toList
    match reSearch regexReminder rl with
    | some (_, _, cps) =>
      [("message", PVal.s (pyStrip ((capStr rl cps 1).getD ""))),
       ("time", PVal.s (pyStrip ((capStr rl cps 2).getD "")))]
    | Option.none =>
      match reSearch regexTimeSeconds rl with
      | some (_, _, cps) =>
        [("value", PVal.i (digitsToNat ((capStr rl cps 1).getD ""))),
         ("unit", PVal.s ((capStr rl cps 2).getD ""))]
      | Option.none =>
        match groupStr rl (reSearch regexSimpleRemind rl) 1 with
        | some g => [("message", PVal.s (pyStrip g))]
        | Option.none => [("message", PVal.s raw)]
  | "volume" =>
    if strContains text "louder" || strContains text "increase" || strContains text "up" then
      [("adjustment", PVal.s "louder")]
    else if strContains text "softer" || strContains text "down" || strContains text "quieter" then
      [("adjustment", PVal.s "softer")]
    else if strContains text "mute" || strContains text "silence" || strContains text "quiet" then
      [("adjustment", PVal.s "mute")]
    else [("adjustment", PVal.none)]
  | "voice_style" =>
    if strContains text "formal" then [("style", PVal.s "formal")]
    else if strContains text "casual" then [("style", PVal.s "casual")]
    else if strContains text "robotic" || strContains text "robot" then
      [("style", PVal.s "robotic")]
    else [("style", PVal.none)]
  | "system_status" =>
    if strContains text "cpu" then [("type", PVal.s "cpu")]
    else if strContains text "battery" then [("type", PVal.s "battery")]
    else if strContains text "network" || strContains text "internet"
         || strContains text "connection" then [("type", PVal.s "network")]
    else [("type", PVal.s "all")]
  | "listening" =>
    if strContains text "start" then [("mode", PVal.s "start")]
    else if strContains text "stop" then [("mode", PVal.s "stop")]
    else [("mode", PVal.none)]
  | _ => []

/-! ## `CommandProcessor.process` -/

/-- does some pattern of the intent match the normalized text? -/
def patternHit (t : String) (sp : IntentSpec) : Bool :=
  sp.patterns.any fun p => (reSearch p t.toList).isSome

/-- the comparison `scores.sort(key=lambda x: x[1], reverse=True)` sorts
by: descending score, stable on ties. -/
def scoreLe (a b : String × ℚ) : Bool := decide (b.2 ≤ a.2)

/-- `process(text)`, translated clause by clause from the source. -/
def process (text : String) : Command :=
  -- `if not text: return {'action': 'unknown', 'params': {'text': text}}`
  if text = "" then { action := "unknown", params := [("text", PVal.s text)] }
  else
    let raw := text
    let t := normalizeText text
    let toks := tokens t
    -- pattern pass: first intent (in catalog order) one of whose
    -- patterns matches wins
    match intentDefinitions.findSome? (fun it =>
        if patternHit t it.2 then some it.1 else Option.none) with
    | some intent => { action := intent, params := extractParams intent t raw }
    | Option.none =>
      -- keyword-overlap pass: `scores.sort(key=lambda x: x[1], reverse=True)`
      -- is a stable descending sort, then `scores[0]`
      let scores := intentDefinitions.map fun it => (it.1, overlapScore toks it.2.keywords)
      let sorted := scores.mergeSort scoreLe
      let best := sorted.headD ("unknown", 0)   -- the catalog is non-empty
      if (1/4 : ℚ) ≤ best.2 then
        { action := best.1, params := extractParams best.1 t raw }
      else
        -- strict-keyword fallback: first two keywords all present
        match intentDefinitions.findSome? (fun it =>
            let required := it.2.keywords.take 2
            if !required.isEmpty && required.all (fun k => toks.contains k) then
              some it.1
            else Option.none) with
        | some intent => { action := intent, params := extractParams intent t raw }
        | Option.none => { action := "unknown", params := [("text", PVal.s raw)] }

/-! ## Session manager (`session_manager.py`)

History entries carry a `datetime.now()` timestamp in the source; the
timestamp is never consulted by any logic modelled here (only echoed in
`get_history_summary`), so entries are modelled by their command. -/

/-- `collections.deque(maxlen=m).append`: append on the right, evicting
the leftmost element when the buffer already holds `m` elements (for any
list; a real deque never exceeds `m`). -/
def dequeAppend (m : Nat) (h : List Command) (c : Command) : List Command :=
  let h' := h ++ [c]
  if m < h'.length then h'.drop (h'.length - m) else h'

/-- `self.pending_confirmation`: `{'action': …, 'params': …, 'message': …}`. -/
structure PendingConf where
  action : String
  params : Params
  message : String
deriving DecidableEq, Repr

/-- The `SessionManager` state (alarm threads are fire-and-forget side
effects; the registry has no observable behaviour and is omitted). -/
structure SM where
  commandHistory : List Command
  pendingConfirmation : Option PendingConf
deriving DecidableEq, Repr

/-- `SessionManager.__init__` -/
def initSM : SM := { commandHistory := [], pendingConfirmation := Option.none }

/-- `add_to_history(command)` -/
def addToHistory (sm : SM) (c : Command) : SM :=
  { sm with commandHistory := dequeAppend MEMORY_SIZE sm.commandHistory c }

/-- `get_last_command()`: `history[-1]` if non-empty -/
def getLastCommand (sm : SM) : Option Command := sm.commandHistory.getLast?

/-- `history[-offset]` when `len(history) >= offset` -/
def getPreviousCommandL (h : List Command) (offset : Nat) : Option Command :=
  if offset ≤ h.length then h.get? (h.length - offset) else Option.none

/-- `get_previous_command(offset)` -/
def getPreviousCommand (sm : SM) (offset : Nat) : Option Command :=
  getPreviousCommandL sm.commandHistory offset

/-- `set_pending_confirmation(action, params, message)` -/
def setPendingConfirmation (sm : SM) (action : String) (params : Params)
    (message : String) : SM :=
  { sm with pendingConfirmation := some ⟨action, params, message⟩ }

/-- `clear_pending_confirmation()` -/
def clearPendingConfirmation (sm : SM) : SM :=
  { sm with pendingConfirmation := Option.none }

/-- `confirm_action()`: returns the confirmed `{action, params}` and the
updated session state. -/
def confirmAction (sm : SM) : Option Command × SM :=
  match sm.pendingConfirmation with
  | some p => (some ⟨p.action, p.params⟩, clearPendingConfirmation sm)
  | Option.none => (Option.none, sm)

/-- `needs_confirmation(action)` -/
def needsConfirmation (action : String) : Bool :=
  ["open_app", "alarm", "reminder"].contains action

/-- `calculate_seconds(value, unit)` -/
def calculateSeconds (value : Int) (unit : String) : Int :=
  let u := pyLower unit
  if "second".isPrefixOf u then value
  else if "minute".isPrefixOf u then value * 60
  else if "hour".isPrefixOf u then value * 3600
  else value

/-! ## Speech engine (`speech_engine.py`): voice style and volume

`listen`, microphones and the TTS backend are external I/O; what is
modelled is the mute/volume/style state that `adjust_volume` and
`change_voice_style` manipulate, with the `rate`/`volume` properties the
engine would push to the TTS backend. -/

structure Speech where
  isMuted : Bool
  baseVolume : ℚ
  currentVoiceStyle : String
  ttsRate : Int
  ttsVolume : ℚ
deriving DecidableEq, Repr

/-- `_apply_voice_style(style)` -/
def applyVoiceStyle (sp : Speech) (style : String) : Speech :=
  match VOICE_STYLES.find? fun v => v.1 == style with
  | some v =>
    { sp with ttsRate := v.2.1, ttsVolume := v.2.2 * sp.baseVolume,
              currentVoiceStyle := style }
  | Option.none => sp

/-- `SpeechEngine.__init__`: muted off, base volume 0.9, then
`_apply_voice_style(DEFAULT_VOICE_STYLE)`. -/
def initSpeech : Speech :=
  applyVoiceStyle
    { isMuted := false, baseVolume := 9/10, currentVoiceStyle := DEFAULT_VOICE_STYLE,
      ttsRate := 0, ttsVolume := 0 }
    DEFAULT_VOICE_STYLE

/-- `change_voice_style(style)` -/
def changeVoiceStyle (sp : Speech) (style : String) : Bool × Speech :=
  if (VOICE_STYLES.find? fun v => v.1 == style).isSome then
    (true, applyVoiceStyle sp style)
  else (false, sp)

/-- `adjust_volume(adjustment)`; the argument is `params['adjustment']`,
a string or Python `None`. -/
def adjustVolume (sp : Speech) (adjustment : Option String) : Speech :=
  if adjustment = some "louder" then
    let sp := { sp with baseVolume := min 1 (sp.baseVolume + 1/5) }
    applyVoiceStyle sp sp.currentVoiceStyle
  else if adjustment = some "softer" then
    let sp := { sp with baseVolume := max (1/5) (sp.baseVolume - 1/5) }
    applyVoiceStyle sp sp.currentVoiceStyle
  else if adjustment = some "mute" then
    { sp with isMuted := !sp.isMuted }
  else sp

/-! ## The dialogue controller (`jarvis.py`)

The controller state carries the session fields it owns plus effect
logs: `spoken` records every `self.speech.speak(...)` call (the speech
engine's own mute check is outside the controller) and `invoked` records
every dispatch to an external handler in `self.functions`
(`get_time`, `get_weather`, `google_search`, `get_wikipedia_summary`,
`get_system_status`, `open_application`) together with the calls into
the speech engine's style/volume mutators and the timers scheduled by
`_set_alarm` / `_set_reminder`.  Handler return messages are external
and abstracted as fixed response strings. -/

structure Ctl where
  /-- `self.session.command_history` -/
  history : List Command
  /-- `self.session.pending_confirmation` -/
  pending : Option PendingConf
  /-- `self.current_mode` -/
  mode : String
  /-- `self.is_running` -/
  isRunning : Bool
  /-- `self.continuous_listening` -/
  continuousListening : Bool
  /-- every `speak(...)` call, in order -/
  spoken : List String
  /-- every external-handler dispatch, in order, as the command that
  reached its handler -/
  invoked : List Command
  /-- every `session.set_alarm(...)` scheduling, recorded by its params -/
  timers : List Params
deriving DecidableEq, Repr

def speakC (st : Ctl) (msg : String) : Ctl := { st with spoken := st.spoken ++ [msg] }

def invokeC (st : Ctl) (c : Command) : Ctl := { st with invoked := st.invoked ++ [c] }

/-- a printable rendering of a parameter value inside an f-string -/
def pvalStr : PVal → String
  | .s v => v
  | .i n => toString n
  | .none => "None"

/-- `_request_confirmation(command)` -/
def requestConfirmation (st : Ctl) (c : Command) : Ctl :=
  let message :=
    if c.action == "open_app" then
      "Do you want me to open " ++ pvalStr (lookupP c.params "app") ++ "? Say yes or no."
    else if c.action == "alarm" then
      "Do you want me to set an alarm for " ++ pvalStr (lookupP c.params "value") ++ " "
        ++ pvalStr (lookupP c.params "unit") ++ "? Say yes or no."
    else if c.action == "reminder" then
      "Do you want me to set a reminder for " ++ pvalStr (lookupP c.params "message")
        ++ "? Say yes or no."
    else "Do you want me to continue? Say yes or no."
  let st := { st with pending := some ⟨c.action, c.params, message⟩ }
  speakC st message

/-- `_handle_speech_error(error)` -/
def handleSpeechError (st : Ctl) (error : String) : Ctl :=
  if error == "timeout" then
    { speakC st "I didn't hear anything. Switching to manual mode." with mode := MODE_MANUAL }
  else if error == "unknown" then
    { speakC st "I couldn't understand that. Switching to manual mode." with mode := MODE_MANUAL }
  else if strContains error "network_error" then
    { speakC st "Network error detected. Switching to manual mode." with mode := MODE_MANUAL }
  else if error == "max_retries" then
    { speakC st "Maximum retries reached. Switching to manual mode." with mode := MODE_MANUAL }
  else
    speakC st ("Error: " ++ error)

/-- `_switch_mode(mode)` -/
def switchMode (st : Ctl) (mode : String) : Ctl :=
  if mode == MODE_VOICE then
    speakC { st with mode := MODE_VOICE } "Switched to voice mode"
  else if mode == MODE_MANUAL then
    speakC { st with mode := MODE_MANUAL } "Switched to manual mode"
  else st

/-- `_handle_listening_mode(mode)` -/
def handleListeningMode (st : Ctl) (mode : PVal) : Ctl :=
  if mode = PVal.s "start" then
    speakC { st with continuousListening := true } "Starting continuous listening mode"
  else if mode = PVal.s "stop" then
    speakC { st with continuousListening := false } "Stopping continuous listening mode"
  else st

/-- `_execute_command(command)`, with fuel for the recursion through
`_handle_repeat` (the source recursion is unbounded: a dispatched
`repeat` command is itself appended to history first, so `repeat that`
would recurse on itself; every claim here needs only finitely many
steps).  Handler calls are recorded in `invoked`; their spoken responses
are abstracted (`"<response:…>"`) since the handlers are external. -/
def executeCommand : Nat → Ctl → Command → Ctl
  | 0, st, _ => st
  | fuel + 1, st, cmd =>
    let action := cmd.action
    let params := cmd.params
    -- self.session.add_to_history(command)
    let st := { st with history := dequeAppend MEMORY_SIZE st.history cmd }
    -- confirmation gate
    if needsConfirmation action && st.pending.isNone then
      requestConfirmation st cmd
    else if action == "time" then
      speakC (invokeC st cmd) "<response:time>"
    else if action == "date" then
      speakC (invokeC st cmd) "<response:date>"
    else if action == "weather" then
      speakC (invokeC st cmd) "<response:weather>"
    else if action == "search" then
      speakC (invokeC st cmd) "<response:search>"
    else if action == "wikipedia" then
      speakC (invokeC st cmd) "<response:wikipedia>"
    else if action == "system_status" then
      speakC (invokeC st cmd) "<response:system_status>"
    else if action == "open_app" then
      speakC (invokeC st cmd) "<response:open_app>"
    else if action == "alarm" then
      -- _set_alarm(params)
      speakC { st with timers := st.timers ++ [params] }
        ("Alarm set for " ++ pvalStr (lookupP params "value") ++ " "
          ++ pvalStr (lookupP params "unit"))
    else if action == "reminder" then
      -- _set_reminder(params)
      speakC { st with timers := st.timers ++ [params] }
        ("Reminder set for " ++ pvalStr (lookupP params "value") ++ " "
          ++ pvalStr (lookupP params "unit"))
    else if action == "voice_style" then
      speakC (invokeC st cmd) "<response:voice_style>"
    else if action == "volume" then
      speakC (invokeC st cmd) "<response:volume>"
    else if action == "mode_switch" then
      switchMode st (pvalStr (lookupP params "mode"))
    else if action == "help" then
      speakC st "<help text>"
    else if action == "repeat" then
      -- _handle_repeat(params)
      let t := lookupP params "type"
      if t = PVal.s "repeat" then
        match st.history.getLast? with          -- get_last_command()
        | some last => executeCommand fuel (speakC st "Repeating last command") last
        | Option.none => speakC st "No previous command to repeat"
      else if t = PVal.s "undo" then
        match getPreviousCommandL st.history 2 with    -- get_previous_command(2)
        | some prev => executeCommand fuel (speakC st "Executing previous command") prev
        | Option.none => speakC st "No previous command found"
      else st
    else if action == "exit" then
      { speakC st "Goodbye! Shutting down." with isRunning := false }
    else if action == "listening" then
      handleListeningMode st (lookupP params "mode")
    else
      speakC st "I didn't understand that command. Say 'help' for available commands."

/-- `_handle_pending_confirmation()`.  Input acquisition is external:
`resp` is the acquired text, `none` standing for a failed `listen()` in
voice mode and for empty manual input in manual mode. -/
def confirmRespond (fuel : Nat) (st : Ctl) (p : PendingConf) (text : String) : Ctl :=
  -- `if text and ('yes' in text or 'yeah' in text or 'sure' in text)`
  if text ≠ "" && (strContains text "yes" || strContains text "yeah"
      || strContains text "sure") then
    -- `confirmed_command = self.session.confirm_action()` clears the
    -- pending slot and yields `{action, params}`; it is non-None here
    let st' := { st with pending := Option.none }
    executeCommand fuel (speakC st' "Confirmed") ⟨p.action, p.params⟩
  else
    -- `self.session.clear_pending_confirmation(); speak("Cancelled")`
    speakC { st with pending := Option.none } "Cancelled"

def handlePendingConfirmation (fuel : Nat) (st : Ctl) (resp : Option String) : Ctl :=
  match st.pending with
  | Option.none => st
  | some p =>
    if st.mode == MODE_VOICE then
      match resp with
      | Option.none => speakC st "I didn't hear you. Please say yes or no."
      | some text => confirmRespond fuel st p text
    else
      let st := speakC st "Type yes or no:"
      match resp with
      | Option.none =>
        -- `text = None` fails the truthiness test and cancels
        speakC { st with pending := Option.none } "Cancelled"
      | some text => confirmRespond fuel st p text

/-! ## The resolver as the spec words it (claim C2)

`resolveSpec` restates the resolution algorithm following the spec's
clause list; it differs from the translated `process` only in step 3,
which the spec words as "select the intent with the maximum score; ties
broken by catalog order (first max encountered)" where the source runs a
stable descending sort and takes element 0. -/

/-- The first entry attaining the maximum score (the spec's "first max
encountered" tie-break). -/
def firstMaxBy : List (String × ℚ) → Option (String × ℚ)
  | [] => Option.none
  | a :: rest =>
    match firstMaxBy rest with
    | Option.none => some a
    | some m => if m.2 ≤ a.2 then some a else some m

/-- The spec's resolution algorithm, clause for clause. -/
def resolveSpec (text : String) : Command :=
  -- 1. empty-input guard
  if text = "" then { action := "unknown", params := [("text", PVal.s text)] }
  else
    let raw := text
    let t := normalizeText text
    let toks := tokens t
    -- 2. pattern pass: first intent in catalog order with a matching pattern
    match intentDefinitions.findSome? (fun it =>
        if patternHit t it.2 then some it.1 else Option.none) with
    | some intent => { action := intent, params := extractParams intent t raw }
    | Option.none =>
      -- 3. keyword-overlap pass: first maximum, threshold 0.25
      let scores := intentDefinitions.map fun it => (it.1, overlapScore toks it.2.keywords)
      let fallback : Command :=
        -- 4. strict-keyword fallback / 5. terminal fallback
        match intentDefinitions.findSome? (fun it =>
            let required := it.2.keywords.take 2
            if !required.isEmpty && required.all (fun k => toks.contains k) then
              some it.1
            else Option.none) with
        | some intent => { action := intent, params := extractParams intent t raw }
        | Option.none => { action := "unknown", params := [("text", PVal.s raw)] }
      match firstMaxBy scores with
      | some best =>
        if (1/4 : ℚ) ≤ best.2 then { action := best.1, params := extractParams best.1 t raw }
        else fallback
      | Option.none => fallback

/-! ### The head of the stable descending sort is the first maximum -/

theorem firstMaxBy_mem {l : List (String × ℚ)} {m : String × ℚ}
    (h : firstMaxBy l = some m) : m ∈ l := by
  induction l generalizing m with
  | nil => simp [firstMaxBy] at h
  | cons a rest ih =>
    rw [firstMaxBy] at h
    cases hr : firstMaxBy rest with
    | none => rw [hr] at h; simp only [Option.some.injEq] at h; simp [← h]
    | some m' =>
      rw [hr] at h
      by_cases hle : m'.2 ≤ a.2 <;> simp only [hle, if_true, if_false, reduceIte,
        Option.some.injEq] at h
      · simp [← h]
      · exact List.mem_cons_of_mem _ (ih (h ▸ hr))

theorem firstMaxBy_eq_none {l : List (String × ℚ)} :
    firstMaxBy l = Option.none ↔ l = [] := by
  cases l with
  | nil => simp [firstMaxBy]
  | cons a rest =>
    simp only [firstMaxBy]
    cases firstMaxBy rest with
    | none => simp
    | some m => by_cases h : m.2 ≤ a.2 <;> simp [h]

theorem firstMaxBy_cons_of_max {a : String × ℚ} {rest : List (String × ℚ)}
    (h : ∀ b ∈ rest, b.2 ≤ a.2) : firstMaxBy (a :: rest) = some a := by
  rw [firstMaxBy]
  cases hr : firstMaxBy rest with
  | none => rfl
  | some m => simp [h m (firstMaxBy_mem hr)]

theorem scoreLe_trans : ∀ a b c : String × ℚ,
    scoreLe a b = true → scoreLe b c = true → scoreLe a c = true := by
  intro a b c hab hbc
  simp only [scoreLe, decide_eq_true_eq] at *
  exact le_trans hbc hab

theorem scoreLe_total : ∀ a b : String × ℚ, (scoreLe a b || scoreLe b a) = true := by
  intro a b
  simp only [scoreLe, Bool.or_eq_true, decide_eq_true_eq]
  exact le_total b.2 a.2

/-- Python's `sort(key=…, reverse=True)` is a stable descending sort;
its first element is exactly the spec's "first max encountered". -/
theorem head?_mergeSort_scoreLe (l : List (String × ℚ)) :
    (l.mergeSort scoreLe).head? = firstMaxBy l := by
  induction l with
  | nil => simp [List.mergeSort_nil, firstMaxBy]
  | cons a rest ih =>
    obtain ⟨l₁, l₂, h1, h2, h3⟩ := List.mergeSort_cons scoreLe_trans scoreLe_total a rest
    cases l₁ with
    | nil =>
      -- the head element `a` stayed in front: every element of `rest`
      -- scores at most `a`
      simp only [List.nil_append] at h1 h2
      have hsorted := List.sorted_mergeSort scoreLe_trans scoreLe_total (a :: rest)
      rw [h1] at hsorted
      have hmax : ∀ b ∈ rest, b.2 ≤ a.2 := by
        intro b hb
        have hb2 : b ∈ l₂ := by
          have hperm := List.mergeSort_perm rest scoreLe
          rw [h2] at hperm
          exact hperm.symm.mem_iff.mp hb
        have := (List.pairwise_cons.mp hsorted).1 b hb2
        simpa [scoreLe] using this
      rw [h1, firstMaxBy_cons_of_max hmax]
      rfl
    | cons c l₁' =>
      -- a strictly better-scoring element `c` moved in front; it (and
      -- the whole head) is the first max of `rest`
      have hhead : ((a :: rest).mergeSort scoreLe).head? = some c := by
        rw [h1]; rfl
      have hrest : (rest.mergeSort scoreLe).head? = some c := by
        rw [h2]; rfl
      have hfm : firstMaxBy rest = some c := by rw [← ih, hrest]
      have hlt : ¬ (c.2 ≤ a.2) := by
        have := h3 c (by simp)
        simpa [scoreLe] using this
      rw [hhead, firstMaxBy, hfm]
      simp [hlt]

/-- C2: for every input string, `process` applies exactly the spec's
priority order, first success winning: (1) empty input returns the
unknown command with the raw text; (2) the first intent in catalog order
with a matching regex pattern wins; (3) otherwise the intent with the
maximum keyword-overlap score wins when that maximum is at least 0.25,
ties broken by catalog order (first maximum encountered); (4) otherwise
the first intent whose first two keywords all occur among the tokens
wins; (5) otherwise the unknown command with the original raw input.
`resolveSpec` is that algorithm written clause by clause, and `process`
(the source translation, whose step 3 is a stable descending sort
followed by taking element 0) agrees with it on every input. -/
theorem process_eq_resolveSpec (text : String) : process text = resolveSpec text := by
  by_cases h : text = ""
  · rw [process, resolveSpec]; simp [h]
  · rw [process, resolveSpec]
    simp only [h, if_false]
    cases hpat : intentDefinitions.findSome? (fun it =>
        if patternHit (normalizeText text) it.2 then some it.1 else Option.none) with
    | some intent => rfl
    | none =>
      cases hfm : firstMaxBy (intentDefinitions.map fun it =>
          (it.1, overlapScore (tokens (normalizeText text)) it.2.keywords)) with
      | none =>
        have hnil := firstMaxBy_eq_none.mp hfm
        rw [hnil, List.mergeSort_nil]
        have : ¬ ((1 : ℚ)/4 ≤ (("unknown", (0 : ℚ)) : String × ℚ).2) := by norm_num
        simp only [List.headD_nil, this, if_false]
      | some b =>
        have hhead : ((intentDefinitions.map fun it =>
            (it.1, overlapScore (tokens (normalizeText text)) it.2.keywords)).mergeSort
              scoreLe).headD ("unknown", 0) = b := by
          rw [List.headD_eq_head?, head?_mergeSort_scoreLe, hfm]; rfl
        rw [hhead]

/-! ## Claim C4: the resolver's invariants -/

/-- does the parameter map define the key? -/
def hasKey (ps : Params) (k : String) : Bool := (ps.find? fun p => p.1 == k).isSome

/-- Every branch of an intent's extraction block sets that intent's
parameter key, so extraction can never yield a missing key (and, being a
total function, never raises). -/
theorem extractParams_total (t raw : String) :
    hasKey (extractParams "weather" t raw) "city" = true
    ∧ hasKey (extractParams "search" t raw) "query" = true
    ∧ hasKey (extractParams "wikipedia" t raw) "query" = true
    ∧ hasKey (extractParams "open_app" t raw) "app" = true
    ∧ hasKey (extractParams "volume" t raw) "adjustment" = true
    ∧ hasKey (extractParams "voice_style" t raw) "style" = true
    ∧ hasKey (extractParams "system_status" t raw) "type" = true
    ∧ hasKey (extractParams "listening" t raw) "mode" = true
    ∧ (hasKey (extractParams "reminder" t raw) "message" = true
       ∨ (hasKey (extractParams "reminder" t raw) "value" = true
          ∧ hasKey (extractParams "reminder" t raw) "unit" = true)) := by
  refine ⟨?_, ?_, ?_, ?_, ?_, ?_, ?_, ?_, ?_⟩
  · rw [extractParams]
    cases groupStr t.toList (reSearch regexCity t.toList) 1 <;> rfl
  · rw [extractParams]
    cases groupStr t.toList (reSearch regexSearch t.toList) 1 <;> rfl
  · rw [extractParams]
    cases (["who is", "what is", "tell me about", "wikipedia", "wiki"].findSome? fun kw =>
        if strContains t kw then
          let phrase := pyStrip (String.mk (splitAfterFirst t.toList kw.toList))
          if phrase ≠ "" then some phrase else Option.none
        else Option.none) <;> rfl
  · rw [extractParams]
    cases groupStr t.toList (reSearch regexOpen t.toList) 1 <;> rfl
  · rw [extractParams]
    split <;> try rfl
    split <;> try rfl
    split <;> rfl
  · rw [extractParams]
    split <;> try rfl
    split <;> try rfl
    split <;> rfl
  · rw [extractParams]
    split <;> try rfl
    split <;> try rfl
    split <;> rfl
  · rw [extractParams]
    split <;> try rfl
    split <;> rfl
  · rw [extractParams]
    cases reSearch regexReminder ((pyLower raw).toList) with
    | some m =>
      obtain ⟨a, b, cps⟩ := m
      left; rfl
    | none =>
      cases reSearch regexTimeSeconds ((pyLower raw).toList) with
      | some m =>
        obtain ⟨a, b, cps⟩ := m
        right; exact ⟨rfl, rfl⟩
      | none =>
        cases groupStr ((pyLower raw).toList)
            (reSearch regexSimpleRemind ((pyLower raw).toList)) 1 <;> (left; rfl)

/-- an intent name delivered by a `findSome?` over the catalog that only
ever returns the entry's own name is a catalog intent name -/
theorem findSome?_intent_mem {g : String × IntentSpec → Option String} {intent : String}
    (h : intentDefinitions.findSome? g = some intent)
    (hg : ∀ it b, g it = some b → b = it.1) :
    intent ∈ intentDefinitions.map Prod.fst := by
  obtain ⟨it, hmem, hit⟩ := List.exists_of_findSome?_eq_some h
  exact (hg it intent hit) ▸ List.mem_map_of_mem Prod.fst hmem

/-- C4: for every input string the command returned by `process` has an
action that is a catalog intent name or the sentinel `"unknown"`, and
parameter extraction is total: it is a total function (never raises) and
every intent that defines a parameter key gets that key in the returned
map, degrading to `PVal.none` / the documented default rather than to a
missing key (for `reminder` one of its three tiers' key sets is
present). -/
theorem process_action_and_params_total (text : String) :
    (process text).action ∈ "unknown" :: intentDefinitions.map Prod.fst
    ∧ (∀ t raw : String,
        hasKey (extractParams "weather" t raw) "city" = true
        ∧ hasKey (extractParams "search" t raw) "query" = true
        ∧ hasKey (extractParams "wikipedia" t raw) "query" = true
        ∧ hasKey (extractParams "open_app" t raw) "app" = true
        ∧ hasKey (extractParams "volume" t raw) "adjustment" = true
        ∧ hasKey (extractParams "voice_style" t raw) "style" = true
        ∧ hasKey (extractParams "system_status" t raw) "type" = true
        ∧ hasKey (extractParams "listening" t raw) "mode" = true
        ∧ (hasKey (extractParams "reminder" t raw) "message" = true
           ∨ (hasKey (extractParams "reminder" t raw) "value" = true
              ∧ hasKey (extractParams "reminder" t raw) "unit" = true))) := by
  refine ⟨?_, fun t raw => extractParams_total t raw⟩
  rw [process]
  by_cases h : text = ""
  · simp [h]
  · simp only [h, if_false]
    cases hpat : intentDefinitions.findSome? (fun it =>
        if patternHit (normalizeText text) it.2 then some it.1 else Option.none) with
    | some intent =>
      refine List.mem_cons_of_mem _ (findSome?_intent_mem hpat ?_)
      intro it b hit
      by_cases hp : patternHit (normalizeText text) it.2 <;> simp [hp] at hit
      exact hit.symm
    | none =>
      cases hfm : firstMaxBy (intentDefinitions.map fun it =>
          (it.1, overlapScore (tokens (normalizeText text)) it.2.keywords)) with
      | none =>
        have hnil := firstMaxBy_eq_none.mp hfm
        rw [hnil, List.mergeSort_nil]
        have hq : ¬ ((1 : ℚ)/4 ≤ (("unknown", (0 : ℚ)) : String × ℚ).2) := by norm_num
        simp only [List.headD_nil, hq, if_false]
        cases hfb : intentDefinitions.findSome? (fun it =>
            let required := it.2.keywords.take 2
            if !required.isEmpty && required.all
                (fun k => (tokens (normalizeText text)).contains k) then some it.1
            else Option.none) with
        | none => simp
        | some intent =>
          refine List.mem_cons_of_mem _ (findSome?_intent_mem hfb ?_)
          intro it b hit
          simp only at hit
          split at hit
          · simpa using hit.symm
          · exact absurd hit (by simp)
      | some b =>
        have hhead : ((intentDefinitions.map fun it =>
            (it.1, overlapScore (tokens (normalizeText text)) it.2.keywords)).mergeSort
              scoreLe).headD ("unknown", 0) = b := by
          rw [List.headD_eq_head?, head?_mergeSort_scoreLe, hfm]; rfl
        rw [hhead]
        by_cases hth : (1 : ℚ)/4 ≤ b.2
        · simp only [hth, if_true]
          have hb := firstMaxBy_mem hfm
          obtain ⟨it, hmem, heq⟩ := List.mem_map.mp hb
          have : b.1 = it.1 := by rw [← heq]
          rw [this]
          exact List.mem_cons_of_mem _ (List.mem_map_of_mem Prod.fst hmem)
        · simp only [hth, if_false]
          cases hfb : intentDefinitions.findSome? (fun it =>
              let required := it.2.keywords.take 2
              if !required.isEmpty && required.all
                  (fun k => (tokens (normalizeText text)).contains k) then some it.1
              else Option.none) with
          | none => simp
          | some intent =>
            refine List.mem_cons_of_mem _ (findSome?_intent_mem hfb ?_)
            intro it b hit
            simp only at hit
            split at hit
            · simpa using hit.symm
            · exact absurd hit (by simp)

/-! ## Claim C5: the normalizer's contract -/

theorem char_isUpper_iff (c : Char) : c.isUpper = true ↔ (65 ≤ c.toNat ∧ c.toNat ≤ 90) := by
  rw [Char.isUpper, Bool.and_eq_true, decide_eq_true_iff, decide_eq_true_iff]
  have h65 : ((65 : UInt32) ≤ c.val) ↔ 65 ≤ c.toNat := by
    rw [UInt32.le_def, BitVec.le_def]; rfl
  have h90 : (c.val ≤ (90 : UInt32)) ↔ c.toNat ≤ 90 := by
    rw [UInt32.le_def, BitVec.le_def]; rfl
  rw [ge_iff_le, h65, h90]

/-- ASCII lowercasing never produces an upper-case letter. -/
theorem toLower_not_upper (c : Char) : (Char.toLower c).isUpper = false := by
  rw [Bool.eq_false_iff]
  intro hup
  rw [char_isUpper_iff, Char.toLower] at hup
  by_cases h : c.toNat ≥ 65 ∧ c.toNat ≤ 90
  · rw [if_pos h] at hup
    have hvalid : (c.toNat + 32).isValidChar := Or.inl (by omega)
    have hv : (Char.ofNat (c.toNat + 32)).toNat = c.toNat + 32 := by
      rw [Char.ofNat, dif_pos hvalid]; rfl
    rw [hv] at hup
    omega
  · rw [if_neg h] at hup
    exact h hup

/-- characters of a substitution output come from the subject or the
replacement -/
theorem mem_reSubCnt {r : RE} {rep : String} {s : List Char} :
    ∀ {fuel pos : Nat} {c : Char}, c ∈ (reSubCnt r rep s pos fuel).toList →
      c ∈ s ∨ c ∈ rep.toList := by
  intro fuel
  induction fuel with
  | zero =>
    intro pos c hc
    rw [reSubCnt] at hc
    exact Or.inl (List.drop_subset _ _ hc)
  | succ n ih =>
    intro pos c hc
    rw [reSubCnt] at hc
    cases hs : searchCnt r s pos (s.length - pos) with
    | none =>
      rw [hs] at hc
      exact Or.inl (List.drop_subset _ _ hc)
    | some m =>
      obtain ⟨a, b, cps⟩ := m
      rw [hs] at hc
      simp only [String.toList, String.data_append, List.mem_append] at hc
      rcases hc with (hc | hc) | hc
      · exact Or.inl (List.drop_subset _ _ (List.take_subset _ _ hc))
      · exact Or.inr hc
      · exact ih hc

theorem mem_reSub {r : RE} {rep : String} {s : List Char} {c : Char}
    (h : c ∈ (reSub r rep s).toList) : c ∈ s ∨ c ∈ rep.toList :=
  mem_reSubCnt h

/-- characters of the collapsed text: a space, or a non-whitespace
character of the input -/
theorem mem_collapseWs {l : List Char} {c : Char} (h : c ∈ collapseWs l) :
    c = ' ' ∨ (c ∈ l ∧ isPySpace c = false) := by
  induction l with
  | nil => simp [collapseWs] at h
  | cons a cs ih =>
    cases cs with
    | nil =>
      by_cases ha : isPySpace a
      · rw [collapseWs, if_pos ha] at h
        simp only [List.mem_singleton] at h
        exact Or.inl h
      · rw [collapseWs, if_neg ha] at h
        simp only [List.mem_singleton] at h
        subst h
        exact Or.inr ⟨by simp, by simp [ha]⟩
    | cons d cs' =>
      rw [collapseWs] at h
      by_cases had : (isPySpace a && isPySpace d) = true
      · rw [if_pos had] at h
        rcases ih h with h' | ⟨hm, hns⟩
        · exact Or.inl h'
        · exact Or.inr ⟨List.mem_cons_of_mem _ hm, hns⟩
      · rw [if_neg had] at h
        rcases List.mem_cons.mp h with hh | hh
        · by_cases ha : isPySpace a
          · rw [if_pos ha] at hh
            exact Or.inl hh
          · rw [if_neg ha] at hh
            subst hh
            exact Or.inr ⟨by simp, by simp [ha]⟩
        · rcases ih hh with h' | ⟨hm, hns⟩
          · exact Or.inl h'
          · exact Or.inr ⟨List.mem_cons_of_mem _ hm, hns⟩

/-- the collapsed text starts with the image of the input's first
character -/
theorem head?_collapseWs (l : List Char) :
    (collapseWs l).head? = l.head?.map fun c => if isPySpace c then ' ' else c := by
  induction l with
  | nil => simp [collapseWs]
  | cons a cs ih =>
    cases cs with
    | nil =>
      by_cases ha : isPySpace a
      · rw [collapseWs, if_pos ha]; simp [ha]
      · rw [collapseWs, if_neg ha]; simp [ha]
    | cons d cs' =>
      rw [collapseWs]
      by_cases had : (isPySpace a && isPySpace d) = true
      · rw [if_pos had, ih]
        obtain ⟨ha, hd⟩ := Bool.and_eq_true_iff.mp had
        simp [ha, hd]
      · rw [if_neg had]
        rfl

/-- no two adjacent whitespace characters survive collapsing -/
theorem chain'_collapseWs (l : List Char) :
    List.Chain' (fun a b => ¬(isPySpace a = true ∧ isPySpace b = true)) (collapseWs l) := by
  induction l with
  | nil => simp [collapseWs]
  | cons a cs ih =>
    cases cs with
    | nil =>
      by_cases ha : isPySpace a
      · rw [collapseWs, if_pos ha]; simp
      · rw [collapseWs, if_neg ha]; simp
    | cons d cs' =>
      rw [collapseWs]
      by_cases had : (isPySpace a && isPySpace d) = true
      · rw [if_pos had]; exact ih
      · rw [if_neg had]
        rw [List.chain'_cons']
        refine ⟨?_, ih⟩
        intro y hy
        rw [head?_collapseWs] at hy
        have hy' : y = if isPySpace d then ' ' else d := by simpa using hy.symm
        subst hy'
        by_cases ha : isPySpace a
        · have hd : isPySpace d = false := by
            cases hdd : isPySpace d
            · rfl
            · exact absurd (by simp [ha, hdd]) had
          intro hcontra
          simp [ha, hd] at hcontra
        · intro hcontra
          rw [if_neg ha] at hcontra
          exact absurd hcontra.1 (by simp [ha])
theorem mem_pyStrip {s : String} {c : Char} (h : c ∈ (pyStrip s).toList) :
    c ∈ s.toList := by
  rw [pyStrip] at h
  have h1 := List.mem_reverse.mp h
  have h2 := (List.dropWhile_sublist _).mem h1
  have h3 := List.mem_reverse.mp h2
  exact (List.dropWhile_sublist _).mem h3

theorem chain'_pyStrip {R : Char → Char → Prop} (hsymm : ∀ a b, R a b → R b a)
    {s : String} (h : List.Chain' R s.toList) : List.Chain' R (pyStrip s).toList := by
  rw [pyStrip]
  have h1 : List.Chain' R (s.toList.dropWhile isPySpace) :=
    h.suffix (List.dropWhile_suffix _)
  have h2 : List.Chain' R (s.toList.dropWhile isPySpace).reverse :=
    List.chain'_reverse.mpr (h1.imp fun a b hab => hsymm a b hab)
  have h3 : List.Chain' R ((s.toList.dropWhile isPySpace).reverse.dropWhile isPySpace) :=
    h2.suffix (List.dropWhile_suffix _)
  exact List.chain'_reverse.mpr (h3.imp fun a b hab => hsymm a b hab)

/-- list form: the stripped text neither starts nor ends with
whitespace -/
theorem strip_ends_not_space (l : List Char) (c : Char) :
    ((((l.dropWhile isPySpace).reverse.dropWhile isPySpace).reverse).head? = some c
     ∨ (((l.dropWhile isPySpace).reverse.dropWhile isPySpace).reverse).getLast? = some c) →
      isPySpace c = false := by
  intro h
  rcases h with h | h
  · rw [List.head?_reverse] at h
    have hne : (l.dropWhile isPySpace).reverse.dropWhile isPySpace ≠ [] := by
      intro hnil
      rw [hnil] at h
      exact absurd h (by simp)
    obtain ⟨pre, hpre⟩ := List.dropWhile_suffix (l := (l.dropWhile isPySpace).reverse)
      (p := isPySpace)
    have hlast : ((l.dropWhile isPySpace).reverse.dropWhile isPySpace).getLast?
        = (l.dropWhile isPySpace).reverse.getLast? := by
      conv_rhs => rw [← hpre]
      rw [List.getLast?_append_of_ne_nil _ hne]
    rw [hlast, List.getLast?_reverse] at h
    have h0 := List.head?_dropWhile_not isPySpace l
    rw [h] at h0
    exact h0
  · rw [List.getLast?_reverse] at h
    have h0 := List.head?_dropWhile_not isPySpace (l.dropWhile isPySpace).reverse
    rw [h] at h0
    exact h0

/-- the stripped text neither starts nor ends with whitespace -/
theorem pyStrip_ends_not_space (s : String) (c : Char) :
    ((pyStrip s).toList.head? = some c ∨ (pyStrip s).toList.getLast? = some c) →
      isPySpace c = false := by
  intro h
  exact strip_ends_not_space s.toList c h

/-- C5: `_normalize` is a pure, deterministic function with: empty input
giving the empty string; lower-case output; every character outside word
characters and whitespace replaced by a space (so every output character
is a word character or a space); fillers removed as whole words only
(`"theater"` survives although it contains `"the"` and `"a"`);
whitespace runs collapsed to single spaces with trimmed ends (no two
adjacent whitespace characters, none at either end).  In particular
`normalize("") = ""` and
`normalize("Please OPEN the Browser!") = "open browser"`. -/
theorem normalizeText_contract :
    normalizeText "" = ""
    ∧ normalizeText "Please OPEN the Browser!" = "open browser"
    ∧ normalizeText "theater" = "theater"
    ∧ (∀ s : String, ∀ c ∈ (normalizeText s).toList,
        (isPyWord c = true ∨ c = ' ') ∧ c.isUpper = false)
    ∧ (∀ s : String, List.Chain' (fun a b => ¬(isPySpace a = true ∧ isPySpace b = true))
        (normalizeText s).toList)
    ∧ (∀ s : String, ∀ c : Char,
        ((normalizeText s).toList.head? = some c
          ∨ (normalizeText s).toList.getLast? = some c) → isPySpace c = false) := by
  refine ⟨by decide, by decide, by decide, ?_, ?_, ?_⟩
  · intro s c hc
    by_cases hs : s = ""
    · subst hs
      simp [normalizeText] at hc
    · rw [normalizeText, if_neg hs] at hc
      have h1 := mem_pyStrip hc
      rcases mem_collapseWs h1 with hsp | ⟨hm, hns⟩
      · subst hsp
        exact ⟨Or.inr rfl, by decide⟩
      · rcases mem_reSub hm with h2 | h2
        · -- a character of the punctuation-stripped, lower-cased text
          obtain ⟨d, hd, hgd⟩ := List.mem_map.mp h2
          obtain ⟨e, _, hde⟩ := List.mem_map.mp hd
          by_cases hgw : (isPyWord d || isPySpace d) = true
          · rw [if_pos hgw] at hgd
            subst hgd
            rcases Bool.or_eq_true_iff.mp hgw with hw | hspd
            · exact ⟨Or.inl hw, hde ▸ toLower_not_upper e⟩
            · exact absurd hspd (by simp [hns])
          · rw [if_neg hgw] at hgd
            rw [← hgd] at hns
            exact absurd hns (by decide)
        · -- a character of the `" "` replacement
          simp only [String.toList, List.mem_singleton] at h2
          exact ⟨Or.inr h2, h2 ▸ (by decide)⟩
  · intro s
    by_cases hs : s = ""
    · subst hs
      simp [normalizeText]
    · rw [normalizeText, if_neg hs]
      exact chain'_pyStrip
        (fun a b hab hba => hab ⟨hba.2, hba.1⟩)
        (chain'_collapseWs _)
  · intro s c hc
    by_cases hs : s = ""
    · subst hs
      simp [normalizeText] at hc
    · rw [normalizeText, if_neg hs] at hc
      exact pyStrip_ends_not_space _ c hc

/-- C8: parameter-extraction round trips.  `search for cats` yields
`{query: "cats"}`; `weather in lagos` yields `{city: "lagos"}`; the
reminder extraction is three-tier on the lower-cased raw text: the full
`remind me [to] X (in|at|on|after) Y` form yields message `X` and time
`Y` (`remind me to call mom in 10 minutes` gives message `"call mom"`,
time `"10 minutes"`); else a bare `<N> <unit>` duration yields the
integer value and the matched unit string (the alternation
`second|seconds|minute|minutes|hour|hours` matches `"minute"` inside
`"minutes"`); else a `remind me to X` form yields message `X`; else the
message is the whole raw text. -/
theorem extraction_round_trips :
    process "search for cats" = ⟨"search", [("query", PVal.s "cats")]⟩
    ∧ process "weather in lagos" = ⟨"weather", [("city", PVal.s "lagos")]⟩
    ∧ process "remind me to call mom in 10 minutes"
        = ⟨"reminder", [("message", PVal.s "call mom"), ("time", PVal.s "10 minutes")]⟩
    ∧ extractParams "reminder" (normalizeText "remind me 10 minutes") "remind me 10 minutes"
        = [("value", PVal.i 10), ("unit", PVal.s "minute")]
    ∧ extractParams "reminder" (normalizeText "remind me to sleep") "remind me to sleep"
        = [("message", PVal.s "sleep")]
    ∧ extractParams "reminder" (normalizeText "reminder") "reminder"
        = [("message", PVal.s "reminder")] :=
  ⟨by decide, by decide, by decide, by decide, by decide, by decide⟩

/-! ## Claim C6: the history buffer is a bounded FIFO -/

/-- the last `m` elements of a list -/
def lastN (m : Nat) (l : List Command) : List Command := l.drop (l.length - m)

theorem lastN_of_le {m : Nat} {l : List Command} (h : l.length ≤ m) : lastN m l = l := by
  rw [lastN, Nat.sub_eq_zero_of_le h, List.drop_zero]

theorem lastN_length_le (m : Nat) (l : List Command) : (lastN m l).length ≤ m := by
  rw [lastN, List.length_drop]
  omega

theorem lastN_cons_of_ge {m : Nat} {l : List Command} (x : Command) (h : m ≤ l.length) :
    lastN m (x :: l) = lastN m l := by
  rw [lastN, lastN, List.length_cons]
  have : l.length + 1 - m = (l.length - m) + 1 := by omega
  rw [this]
  rfl

/-- one `deque(maxlen=m).append` keeps exactly the last `m` elements -/
theorem dequeAppend_eq {m : Nat} {h : List Command} (hh : h.length ≤ m) (c : Command) :
    dequeAppend m h c = lastN m (h ++ [c]) := by
  rw [dequeAppend, lastN]
  split
  · rfl
  · rename_i hle
    have : (h ++ [c]).length - m = 0 := by omega
    rw [this, List.drop_zero]

/-- a list's last `m` elements determine the last `m` of any extension -/
theorem lastN_lastN_append (m : Nat) :
    ∀ (l cs : List Command), lastN m (lastN m l ++ cs) = lastN m (l ++ cs) := by
  intro l
  induction l with
  | nil =>
    intro cs
    simp [lastN]
  | cons x t ih =>
    intro cs
    rcases Nat.lt_or_ge t.length m with hlt | hge
    · rw [lastN_of_le (l := x :: t) (by simp; omega)]
    · rw [lastN_cons_of_ge x hge, ih,
        show (x :: t) ++ cs = x :: (t ++ cs) from rfl,
        lastN_cons_of_ge x (by rw [List.length_append]; omega)]

/-- folding appends over a bounded buffer keeps exactly the last `m` of
the concatenation -/
theorem foldl_dequeAppend (m : Nat) :
    ∀ (cs : List Command) (h : List Command), h.length ≤ m →
      cs.foldl (dequeAppend m) h = lastN m (h ++ cs) := by
  intro cs
  induction cs with
  | nil =>
    intro h hh
    rw [List.foldl_nil, List.append_nil, lastN_of_le hh]
  | cons c cs ih =>
    intro h hh
    rw [List.foldl_cons, ih _ (by rw [dequeAppend_eq hh]; exact lastN_length_le m _),
      dequeAppend_eq hh, lastN_lastN_append,
      show (h ++ [c]) ++ cs = h ++ c :: cs by simp]

theorem foldl_addToHistory_commandHistory :
    ∀ (cs : List Command) (sm : SM),
      (cs.foldl addToHistory sm).commandHistory
        = cs.foldl (dequeAppend MEMORY_SIZE) sm.commandHistory := by
  intro cs
  induction cs with
  | nil => intro sm; rfl
  | cons c cs ih => intro sm; rw [List.foldl_cons, List.foldl_cons, ih]; rfl

/-- C6: the command history is a FIFO buffer bounded by `MEMORY_SIZE`
(3): for every sequence of `add_to_history` calls from a within-bounds
state the length never exceeds `MEMORY_SIZE`; the surviving entries are
exactly the last `MEMORY_SIZE` of the insertion sequence (oldest evicted
first); in particular after inserting `MEMORY_SIZE + 2` commands exactly
the last `MEMORY_SIZE` remain. -/
theorem history_fifo_bounded (sm : SM) (cs : List Command)
    (hlen : sm.commandHistory.length ≤ MEMORY_SIZE) :
    ((cs.foldl addToHistory sm).commandHistory.length ≤ MEMORY_SIZE)
    ∧ (cs.foldl addToHistory sm).commandHistory
        = lastN MEMORY_SIZE (sm.commandHistory ++ cs)
    ∧ (cs.length = MEMORY_SIZE + 2 →
        (cs.foldl addToHistory sm).commandHistory = cs.drop 2) := by
  have hist := foldl_addToHistory_commandHistory cs sm
  rw [hist, foldl_dequeAppend MEMORY_SIZE cs sm.commandHistory hlen]
  refine ⟨lastN_length_le _ _, rfl, ?_⟩
  intro hcs
  rw [lastN, List.length_append, hcs,
    show sm.commandHistory.length + (MEMORY_SIZE + 2) - MEMORY_SIZE
      = sm.commandHistory.length + 2 by omega,
    List.drop_append 2]

def timeCmd : Command := ⟨"time", []⟩
def dateCmd : Command := ⟨"date", []⟩
def helpCmd : Command := ⟨"help", []⟩
def exitCmd : Command := ⟨"exit", []⟩
def openCmd : Command := ⟨"open_app", [("app", PVal.s "browser")]⟩

theorem history_fifo_bounded_witness :
    initSM.commandHistory.length ≤ MEMORY_SIZE
    ∧ [timeCmd, dateCmd, helpCmd, exitCmd, openCmd].length = MEMORY_SIZE + 2
    ∧ ([timeCmd, dateCmd, helpCmd, exitCmd, openCmd].foldl addToHistory
        initSM).commandHistory = [helpCmd, exitCmd, openCmd] :=
  ⟨by decide, by decide, by
    have h := (history_fifo_bounded initSM [timeCmd, dateCmd, helpCmd, exitCmd, openCmd]
      (by decide)).2.2 (by decide)
    exact h.trans rfl⟩

/-- C7: `confirm_action` atomically reads and clears the
pending-confirmation slot: with a pending confirmation it returns a
command with the pending action and params and the state with the slot
emptied and everything else unchanged; with no pending confirmation it
returns `none` and the state unchanged. -/
theorem confirmAction_reads_and_clears (sm : SM) :
    (∀ p, sm.pendingConfirmation = some p →
      confirmAction sm
        = (some ⟨p.action, p.params⟩, { sm with pendingConfirmation := Option.none }))
    ∧ (sm.pendingConfirmation = Option.none → confirmAction sm = (Option.none, sm)) := by
  constructor
  · intro p hp
    rw [confirmAction, hp]
    rfl
  · intro hp
    rw [confirmAction, hp]

def pendOpen : PendingConf := ⟨"open_app", [("app", PVal.s "browser")], "m"⟩

def smPend : SM := { commandHistory := [timeCmd], pendingConfirmation := some pendOpen }

theorem confirmAction_reads_and_clears_witness :
    smPend.pendingConfirmation = some pendOpen
    ∧ confirmAction smPend
      = (some ⟨pendOpen.action, pendOpen.params⟩,
         { smPend with pendingConfirmation := Option.none })
    ∧ initSM.pendingConfirmation = Option.none
    ∧ confirmAction initSM = (Option.none, initSM) :=
  ⟨rfl,
   (confirmAction_reads_and_clears smPend).1 pendOpen rfl,
   rfl,
   (confirmAction_reads_and_clears initSM).2 rfl⟩

/-! ## Claim C10: volume control invariants -/

theorem applyVoiceStyle_baseVolume (sp : Speech) (st : String) :
    (applyVoiceStyle sp st).baseVolume = sp.baseVolume := by
  rw [applyVoiceStyle]
  cases VOICE_STYLES.find? fun v => v.1 == st <;> rfl

theorem adjustVolume_bounds {sp : Speech} (h1 : 1/5 ≤ sp.baseVolume)
    (h2 : sp.baseVolume ≤ 1) (a : Option String) :
    1/5 ≤ (adjustVolume sp a).baseVolume ∧ (adjustVolume sp a).baseVolume ≤ 1 := by
  rw [adjustVolume]
  split
  · rw [applyVoiceStyle_baseVolume]
    constructor
    · exact le_min (by norm_num) (by linarith)
    · exact min_le_left _ _
  · split
    · rw [applyVoiceStyle_baseVolume]
      constructor
      · exact le_max_left _ _
      · exact max_le (by norm_num) (by linarith)
    · split
      · exact ⟨h1, h2⟩
      · exact ⟨h1, h2⟩

theorem foldl_adjustVolume_bounds :
    ∀ (adjs : List (Option String)) (sp : Speech),
      1/5 ≤ sp.baseVolume → sp.baseVolume ≤ 1 →
      1/5 ≤ (adjs.foldl adjustVolume sp).baseVolume
        ∧ (adjs.foldl adjustVolume sp).baseVolume ≤ 1 := by
  intro adjs
  induction adjs with
  | nil => intro sp h1 h2; exact ⟨h1, h2⟩
  | cons a adjs ih =>
    intro sp h1 h2
    rw [List.foldl_cons]
    obtain ⟨g1, g2⟩ := adjustVolume_bounds h1 h2 a
    exact ih _ g1 g2

/-- C10: volume control keeps its invariants: `base_volume` starts at
0.9 and every `adjust_volume` call keeps it in `[0.2, 1.0]`; `louder`
adds 0.2 clamped at 1.0 and `softer` subtracts 0.2 clamped at 0.2, both
re-applying the current voice style to the TTS engine; `mute` toggles
`is_muted` (it does not set it one-way) leaving everything else,
`base_volume` included, unchanged; any other adjustment value (`None`
included) changes nothing. -/
theorem volume_invariants :
    initSpeech.baseVolume = 9/10
    ∧ (∀ adjs : List (Option String),
        1/5 ≤ (adjs.foldl adjustVolume initSpeech).baseVolume
          ∧ (adjs.foldl adjustVolume initSpeech).baseVolume ≤ 1)
    ∧ (∀ sp : Speech,
        (adjustVolume sp (some "louder")).baseVolume = min 1 (sp.baseVolume + 1/5)
        ∧ (adjustVolume sp (some "softer")).baseVolume = max (1/5) (sp.baseVolume - 1/5)
        ∧ adjustVolume sp (some "louder")
            = applyVoiceStyle { sp with baseVolume := min 1 (sp.baseVolume + 1/5) }
                sp.currentVoiceStyle
        ∧ adjustVolume sp (some "softer")
            = applyVoiceStyle { sp with baseVolume := max (1/5) (sp.baseVolume - 1/5) }
                sp.currentVoiceStyle
        ∧ adjustVolume sp (some "mute") = { sp with isMuted := !sp.isMuted }
        ∧ (∀ a : Option String,
            a ≠ some "louder" → a ≠ some "softer" → a ≠ some "mute" →
              adjustVolume sp a = sp)) := by
  refine ⟨rfl, ?_, ?_⟩
  · intro adjs
    exact foldl_adjustVolume_bounds adjs initSpeech
      (by rw [initSpeech, applyVoiceStyle_baseVolume]; norm_num)
      (by rw [initSpeech, applyVoiceStyle_baseVolume]; norm_num)
  · intro sp
    refine ⟨?_, ?_, ?_, ?_, ?_, ?_⟩
    · rw [adjustVolume, if_pos rfl, applyVoiceStyle_baseVolume]
    · rw [adjustVolume, if_neg (by decide), if_pos rfl, applyVoiceStyle_baseVolume]
    · rw [adjustVolume, if_pos rfl]
    · rw [adjustVolume, if_neg (by decide), if_pos rfl]
    · rw [adjustVolume, if_neg (by decide), if_neg (by decide), if_pos rfl]
    · intro a ha1 ha2 ha3
      rw [adjustVolume, if_neg ha1, if_neg ha2, if_neg ha3]

theorem volume_invariants_witness :
    (Option.none ≠ some "louder" ∧ Option.none ≠ some "softer" ∧ Option.none ≠ some "mute")
    ∧ adjustVolume initSpeech Option.none = initSpeech :=
  ⟨⟨by decide, by decide, by decide⟩,
   ((volume_invariants.2.2 initSpeech).2.2.2.2.2) Option.none (by decide) (by decide)
     (by decide)⟩

/-! ## Claim C9: speech-error fallback to manual mode -/

/-- a controller state in voice mode with nothing recorded -/
def ctlVoice : Ctl :=
  ⟨[], Option.none, MODE_VOICE, true, false, [], [], []⟩

/-- C9 counterexample: the claim says every error kind the speech input
can report switches the mode to Manual, including `error:<detail>`; but
a generic `error: …` report falls into the handler's final `else`, which
only speaks and leaves the mode unchanged — here Voice. -/
theorem generic_error_keeps_mode_cex :
    (handleSpeechError ctlVoice "error: mic exploded").mode = MODE_VOICE
    ∧ MODE_VOICE ≠ MODE_MANUAL := by
  exact ⟨by decide, by decide⟩

/-- `"network_error: " ++ d` always contains `"network_error"` -/
theorem strContains_network_error (d : String) :
    strContains ("network_error: " ++ d) "network_error" = true := by
  rw [strContains, listContains.eq_def]
  have hp : "network_error".toList.isPrefixOf ("network_error: " ++ d).toList = true := by
    rw [List.isPrefixOf_iff_prefix]
    have h1 : "network_error".toList <+: "network_error: ".toList := by decide
    have h2 : "network_error: ".toList <+: ("network_error: " ++ d).toList := by
      rw [show ("network_error: " ++ d).toList = "network_error: ".toList ++ d.toList from rfl]
      exact List.prefix_append _ _
    exact h1.trans h2
  rw [hp, Bool.true_or]

/-- a string starting with `"network_error: "` differs from the three
fixed error atoms, whose first characters differ from `n` -/
theorem network_error_ne (d : String) :
    (("network_error: " ++ d) == "timeout") = false
    ∧ (("network_error: " ++ d) == "unknown") = false := by
  constructor <;>
  · rw [beq_eq_false_iff_ne]
    intro h
    have h2 := congrArg (fun s => s.data.head?) h
    simp only [String.data_append, List.head?_append] at h2
    first
      | exact absurd (show (some 'n' : Option Char) = some 't' from h2) (by decide)
      | exact absurd (show (some 'n' : Option Char) = some 'u' from h2) (by decide)

/-- a string starting with `"error: "` differs from the fixed error
atoms -/
theorem generic_error_ne (d : String) :
    (("error: " ++ d) == "timeout") = false
    ∧ (("error: " ++ d) == "unknown") = false
    ∧ (("error: " ++ d) == "max_retries") = false := by
  refine ⟨?_, ?_, ?_⟩ <;>
  · rw [beq_eq_false_iff_ne]
    intro h
    have h2 := congrArg (fun s => s.data.head?) h
    simp only [String.data_append, List.head?_append] at h2
    first
      | exact absurd (show (some 'e' : Option Char) = some 't' from h2) (by decide)
      | exact absurd (show (some 'e' : Option Char) = some 'u' from h2) (by decide)
      | exact absurd (show (some 'e' : Option Char) = some 'm' from h2) (by decide)

/-- C9 (amended): the four acquisition-failure kinds `timeout`,
`unknown`, `network_error:<detail>` and `max_retries` switch the session
mode to Manual; a generic `error:<detail>` report (whose detail does not
itself mention `network_error`) is only spoken, leaving the mode
unchanged; no speech error ever stops the controller (`is_running` is
untouched), so the failure is never fatal. -/
theorem speech_error_fallback (st : Ctl) (d : String) :
    (handleSpeechError st "timeout").mode = MODE_MANUAL
    ∧ (handleSpeechError st "unknown").mode = MODE_MANUAL
    ∧ (handleSpeechError st ("network_error: " ++ d)).mode = MODE_MANUAL
    ∧ (handleSpeechError st "max_retries").mode = MODE_MANUAL
    ∧ (strContains ("error: " ++ d) "network_error" = false →
        handleSpeechError st ("error: " ++ d)
          = speakC st ("Error: " ++ ("error: " ++ d)))
    ∧ (∀ e : String, (handleSpeechError st e).isRunning = st.isRunning) := by
  refine ⟨rfl, rfl, ?_, rfl, ?_, ?_⟩
  · obtain ⟨h1, h2⟩ := network_error_ne d
    rw [handleSpeechError]
    simp only [h1, h2, Bool.false_eq_true, if_false, strContains_network_error, if_true]
  · intro hnc
    obtain ⟨h1, h2, h3⟩ := generic_error_ne d
    rw [handleSpeechError]
    simp only [h1, h2, h3, hnc, Bool.false_eq_true, if_false]
  · intro e
    rw [handleSpeechError]
    split
    · rfl
    · split
      · rfl
      · split
        · rfl
        · split <;> rfl

theorem speech_error_fallback_witness :
    strContains ("error: " ++ "mic broke") "network_error" = false
    ∧ handleSpeechError ctlVoice ("error: " ++ "mic broke")
        = speakC ctlVoice ("Error: " ++ ("error: " ++ "mic broke")) :=
  ⟨by decide, ((speech_error_fallback ctlVoice "mic broke").2.2.2.2.1) (by decide)⟩

/-! ## Claim C1: confirmation gating (a code bug)

Dispatching a sensitive command stores a pending confirmation and does
not run its handler, and a negative response cancels — both as the spec
says.  But on an affirmative response `confirm_action()` clears the
pending slot *before* `_execute_command` re-dispatches the confirmed
command, so the gate `needs_confirmation(action) and not
get_pending_confirmation()` fires again: the handler is never invoked
and a fresh pending confirmation is stored (an endless confirm loop).
The code's own flow — speaking "Confirmed" and then re-dispatching —
shows execution was intended, so the claim is right and the code is
wrong. -/

def ctlManual : Ctl := ⟨[], Option.none, MODE_MANUAL, true, false, [], [], []⟩

def openPendingMsg : String := "Do you want me to open browser? Say yes or no."

/-- C1 (code bug, evaluated at the failing input): dispatch
`{open_app, app: browser}` with no pending confirmation, then answer
"yes".  The dispatch stores exactly one pending confirmation and invokes
nothing; the affirmative response also invokes nothing and stores the
same pending confirmation again — the claimed "executes the confirmed
command's handler exactly once" never happens.  A negative response
clears the slot and executes nothing, as claimed. -/
theorem confirmed_open_app_never_executes :
    (executeCommand 10 ctlManual openCmd).pending
        = some ⟨"open_app", openCmd.params, openPendingMsg⟩
    ∧ (executeCommand 10 ctlManual openCmd).invoked = []
    ∧ (handlePendingConfirmation 10 (executeCommand 10 ctlManual openCmd)
        (some "yes")).invoked = []
    ∧ (handlePendingConfirmation 10 (executeCommand 10 ctlManual openCmd)
        (some "yes")).pending = some ⟨"open_app", openCmd.params, openPendingMsg⟩
    ∧ (handlePendingConfirmation 10 (executeCommand 10 ctlManual openCmd)
        (some "no")).pending = Option.none
    ∧ (handlePendingConfirmation 10 (executeCommand 10 ctlManual openCmd)
        (some "no")).invoked = [] :=
  ⟨by decide, by decide, by decide, by decide, by decide, by decide⟩

/-! ## Claim C3: repeat / undo re-dispatch -/

def undoCmd : Command := ⟨"repeat", [("type", PVal.s "undo")]⟩

def ctlHistOpen : Ctl := ⟨[openCmd], Option.none, MODE_MANUAL, true, false, [], [], []⟩

/-- C3 counterexample: the claim says the repeat/undo re-dispatch
bypasses confirmation gating (the re-executed command is not gated a
second time).  With history `[open_app]` and no pending confirmation,
dispatching `undo` re-dispatches the `open_app` command at offset 2 —
and that re-dispatch IS gated: no handler is invoked and a pending
confirmation is stored instead. -/
theorem undo_redispatch_is_gated_cex :
    (executeCommand 10 ctlHistOpen undoCmd).invoked = []
    ∧ (executeCommand 10 ctlHistOpen undoCmd).pending
        = some ⟨"open_app", openCmd.params, openPendingMsg⟩ :=
  ⟨by decide, by decide⟩

/-- C3 (amended): the `repeat` dispatch re-invokes the dispatch path on
the history entry at offset 1 and `undo` on the entry at offset 2 —
offsets into the history *after* the repeat command itself has been
appended, so offset 1 is the just-appended repeat command; when no entry
exists at the requested offset nothing is executed; and the re-dispatch
passes through the same confirmation gate rather than bypassing it, so a
sensitive command re-dispatched with no pending confirmation is gated
again (handler not invoked, pending confirmation stored). -/
theorem executeCommand_repeat (fuel : Nat) (st : Ctl) (params : Params) :
    executeCommand (fuel + 1) st ⟨"repeat", params⟩
      = (let st' := { st with
            history := dequeAppend MEMORY_SIZE st.history ⟨"repeat", params⟩ };
         let t := lookupP params "type";
         if t = PVal.s "repeat" then
           match st'.history.getLast? with
           | some last => executeCommand fuel (speakC st' "Repeating last command") last
           | Option.none => speakC st' "No previous command to repeat"
         else if t = PVal.s "undo" then
           match getPreviousCommandL st'.history 2 with
           | some prev => executeCommand fuel (speakC st' "Executing previous command") prev
           | Option.none => speakC st' "No previous command found"
         else st') := by
  rw [executeCommand]
  simp only [show needsConfirmation "repeat" = false from rfl, Bool.false_and,
    Bool.false_eq_true, if_false,
    show (("repeat" : String) == "time") = false from rfl,
    show (("repeat" : String) == "date") = false from rfl,
    show (("repeat" : String) == "weather") = false from rfl,
    show (("repeat" : String) == "search") = false from rfl,
    show (("repeat" : String) == "wikipedia") = false from rfl,
    show (("repeat" : String) == "system_status") = false from rfl,
    show (("repeat" : String) == "open_app") = false from rfl,
    show (("repeat" : String) == "alarm") = false from rfl,
    show (("repeat" : String) == "reminder") = false from rfl,
    show (("repeat" : String) == "voice_style") = false from rfl,
    show (("repeat" : String) == "volume") = false from rfl,
    show (("repeat" : String) == "mode_switch") = false from rfl,
    show (("repeat" : String) == "help") = false from rfl,
    show (("repeat" : String) == "repeat") = true from rfl, if_true]

/-- C3 (amended): the `repeat` dispatch re-invokes the dispatch path on
the history entry at offset 1 and `undo` on the entry at offset 2 —
offsets into the history *after* the repeat command itself has been
appended, so offset 1 is the just-appended repeat command; when no entry
exists at the requested offset nothing is executed; and the re-dispatch
passes through the same confirmation gate rather than bypassing it, so a
sensitive command re-dispatched with no pending confirmation is gated
again (handler not invoked, pending confirmation stored). -/
theorem repeat_undo_redispatch (fuel : Nat) (st : Ctl) (params : Params)
    (c prev : Command) (hpend : st.pending = Option.none) :
    (lookupP params "type" = PVal.s "repeat" →
      (dequeAppend MEMORY_SIZE st.history ⟨"repeat", params⟩).getLast? = some prev →
      executeCommand (fuel + 1) st ⟨"repeat", params⟩
        = executeCommand fuel
            (speakC { st with history := dequeAppend MEMORY_SIZE st.history ⟨"repeat", params⟩ }
              "Repeating last command") prev)
    ∧ (lookupP params "type" = PVal.s "undo" →
      getPreviousCommandL (dequeAppend MEMORY_SIZE st.history ⟨"repeat", params⟩) 2
          = some prev →
      executeCommand (fuel + 1) st ⟨"repeat", params⟩
        = executeCommand fuel
            (speakC { st with history := dequeAppend MEMORY_SIZE st.history ⟨"repeat", params⟩ }
              "Executing previous command") prev)
    ∧ (lookupP params "type" = PVal.s "undo" →
      getPreviousCommandL (dequeAppend MEMORY_SIZE st.history ⟨"repeat", params⟩) 2
          = Option.none →
      executeCommand (fuel + 1) st ⟨"repeat", params⟩
        = speakC { st with history := dequeAppend MEMORY_SIZE st.history ⟨"repeat", params⟩ }
            "No previous command found"
      ∧ (executeCommand (fuel + 1) st ⟨"repeat", params⟩).invoked = st.invoked)
    ∧ (needsConfirmation c.action = true →
      (executeCommand (fuel + 1) st c).invoked = st.invoked
      ∧ (executeCommand (fuel + 1) st c).pending.isSome = true) := by
  refine ⟨?_, ?_, ?_, ?_⟩
  · intro htype hlast
    rw [executeCommand_repeat]
    simp only []
    rw [if_pos htype, hlast]
  · intro htype hprev
    rw [executeCommand_repeat]
    simp only []
    rw [if_neg (by rw [htype]; decide), if_pos htype, hprev]
  · intro htype hprev
    have heq : executeCommand (fuel + 1) st ⟨"repeat", params⟩
        = speakC { st with history := dequeAppend MEMORY_SIZE st.history ⟨"repeat", params⟩ }
            "No previous command found" := by
      rw [executeCommand_repeat]
      simp only []
      rw [if_neg (by rw [htype]; decide), if_pos htype, hprev]
    exact ⟨heq, by rw [heq]; rfl⟩
  · intro hconf
    rw [executeCommand]
    rw [if_pos (by rw [hconf, hpend]; rfl)]
    exact ⟨rfl, rfl⟩

theorem repeat_undo_redispatch_witness :
    ctlHistOpen.pending = Option.none
    ∧ lookupP undoCmd.params "type" = PVal.s "undo"
    ∧ getPreviousCommandL (dequeAppend MEMORY_SIZE ctlHistOpen.history undoCmd) 2
        = some openCmd
    ∧ executeCommand 10 ctlHistOpen undoCmd
        = executeCommand 9
            (speakC { ctlHistOpen with
                history := dequeAppend MEMORY_SIZE ctlHistOpen.history undoCmd }
              "Executing previous command") openCmd
    ∧ needsConfirmation openCmd.action = true
    ∧ (executeCommand 10 ctlHistOpen openCmd).invoked = ctlHistOpen.invoked
    ∧ (executeCommand 10 ctlHistOpen openCmd).pending.isSome = true :=
  ⟨rfl, rfl, by decide,
   (repeat_undo_redispatch 9 ctlHistOpen undoCmd.params openCmd openCmd rfl).2.1 rfl
     (by decide),
   by decide,
   ((repeat_undo_redispatch 9 ctlHistOpen undoCmd.params openCmd openCmd rfl).2.2.2
     (by decide)).1,
   ((repeat_undo_redispatch 9 ctlHistOpen undoCmd.params openCmd openCmd rfl).2.2.2
     (by decide)).2⟩

theorem normalizeText_contract_witness :
    'o' ∈ (normalizeText "Please OPEN the Browser!").toList
    ∧ ((isPyWord 'o' = true ∨ 'o' = ' ') ∧ 'o'.isUpper = false)
    ∧ (normalizeText "Please OPEN the Browser!").toList.head? = some 'o'
    ∧ isPySpace 'o' = false :=
  ⟨by decide,
   normalizeText_contract.2.2.2.1 "Please OPEN the Browser!" 'o' (by decide),
   by decide,
   normalizeText_contract.2.2.2.2.2 "Please OPEN the Browser!" 'o' (Or.inl (by decide))⟩
